import Mathlib

/-!
Verification of the figure-of-merit (FoM) pulsar selection logic of
`gen_FoM_dataset.ipynb` (IPTA DR2 analysis).

The notebook builds, for every pulsar and every candidate PTA
(collaboration), a small summary record stored in `FoM_dict` and then
greedily selects the best PTA per pulsar (`psrdict` loop).

Modelling conventions:
* The numeric values held in `FoM_dict` are IEEE doubles; the only
  non-finite value the notebook ever stores is `+inf` (for `sigma` and
  `dt` when no epochs survive filtering).  We model those values as
  `WithTop ℚ`, with `⊤` standing for `+inf`; all comparisons performed
  by the selection loop are order comparisons, faithfully represented.
* The real-valued FoM formulas (`bwm_FoM`, `gwb_FoM_weak`,
  `gwb_FoM_inter`) are modelled over `ℝ`.
* Python dictionaries are modelled as functions into `Option`; a `try:
  ... except KeyError: pass` block is modelled by an `Except Unit`
  computation whose error branch returns the unmodified state.
-/

/-- One entry `FoM_dict[psrname][pta]` of the summary dictionary, with the
four fields the notebook stores (`Tobs`, `dt`, `sigma`, `FoM`). -/
structure ObservationRecord where
  Tobs  : WithTop ℚ
  dt    : WithTop ℚ
  sigma : WithTop ℚ
  FoM   : WithTop ℚ
deriving DecidableEq

/-- The two threshold tests of the selection loop, exactly as written in the
notebook: `this['Tobs'] > Tmin and this['sigma'] < sigmax` (both strict). -/
def Qualifies (tmin smax : WithTop ℚ) (r : ObservationRecord) : Prop :=
  r.Tobs > tmin ∧ r.sigma < smax

instance (tmin smax : WithTop ℚ) (r : ObservationRecord) :
    Decidable (Qualifies tmin smax r) := by
  unfold Qualifies; infer_instance

/-- The running accumulator of the selection loop:
`best = {'pta': None, 'Tobs': 0, 'FoM': 0}`. -/
structure Best where
  pta  : Option String
  Tobs : WithTop ℚ
  FoM  : WithTop ℚ
deriving DecidableEq

/-- One iteration of the inner loop of the `psrdict` cell: look up
`FoM_dict[psrname][pta]` (a missing key is the `except KeyError: pass`
branch) and replace `best` when the record passes both thresholds and
strictly improves `best['FoM']`. -/
def selStep (lookup : String → String → Option ObservationRecord)
    (tmin smax : WithTop ℚ) (psrname : String) (best : Best) (pta : String) : Best :=
  match lookup psrname pta with
  | none => best
  | some r =>
    if Qualifies tmin smax r ∧ r.FoM > best.FoM then
      { pta := some pta, Tobs := r.Tobs, FoM := r.FoM }
    else best

/-- The inner loop of the `psrdict` cell for one pulsar: fold `selStep`
over the candidate PTA list starting from the initial `best`. -/
def selectBest (lookup : String → String → Option ObservationRecord)
    (tmin smax : WithTop ℚ) (ptas : List String) (psrname : String) : Best :=
  ptas.foldl (selStep lookup tmin smax psrname) { pta := none, Tobs := 0, FoM := 0 }

/-- One value of the output dictionary `psrdict`:
`{'pta': [best['pta']], 'group': backends[best['pta']]}`. -/
structure Assignment where
  pta   : List String
  group : List String
deriving DecidableEq

/-- One iteration of the outer loop of the `psrdict` cell: run the inner
loop for `psrname` and, if a best PTA was found, add the pulsar's entry to
the output dictionary (modelled as an association list in insertion
order). -/
def psrStep (lookup : String → String → Option ObservationRecord)
    (tmin smax : WithTop ℚ) (ptas : List String) (backends : String → List String)
    (acc : List (String × Assignment)) (psrname : String) : List (String × Assignment) :=
  match (selectBest lookup tmin smax ptas psrname).pta with
  | some p => acc ++ [ (psrname, { pta := [ p ], group := backends p }) ]
  | none => acc

/-- The whole `psrdict` cell: fold the per-pulsar step over `psrlist`,
starting from the empty dictionary. -/
def psrdictBuild (lookup : String → String → Option ObservationRecord)
    (tmin smax : WithTop ℚ) (ptas : List String) (backends : String → List String)
    (psrlist : List String) : List (String × Assignment) :=
  psrlist.foldl (psrStep lookup tmin smax ptas backends) []

/-- Loop invariant of the inner selection loop after the candidates in
`seen` have been examined: `best['FoM']` is nonnegative, dominates the FoM
of every qualifying record seen so far, is still `0` while no PTA has been
picked, and, once a PTA has been picked, `best` is an exact copy of that
PTA's qualifying record, whose FoM is strictly positive. -/
def SelInv (lookup : String → String → Option ObservationRecord)
    (tmin smax : WithTop ℚ) (psrname : String) (seen : List String) (b : Best) : Prop :=
  0 ≤ b.FoM ∧
  (b.pta = none → b.FoM = 0) ∧
  (∀ q ∈ seen, ∀ s, lookup psrname q = some s → Qualifies tmin smax s → s.FoM ≤ b.FoM) ∧
  (∀ p, b.pta = some p → p ∈ seen ∧ ∃ r, lookup psrname p = some r ∧
    Qualifies tmin smax r ∧ b.Tobs = r.Tobs ∧ b.FoM = r.FoM ∧ 0 < r.FoM)

noncomputable section

/-- `bwm_FoM(Tobs, dt, TOAerr) = np.sqrt(Tobs**3/dt) / TOAerr`. -/
def bwm_FoM (Tobs dt TOAerr : ℝ) : ℝ := Real.sqrt (Tobs ^ 3 / dt) / TOAerr

/-- `gwb_FoM_weak(Tobs, dt, TOAerr) = Tobs**(13/3) / TOAerr**2 / dt`. -/
def gwb_FoM_weak (Tobs dt TOAerr : ℝ) : ℝ := Tobs ^ ((13:ℝ)/3) / TOAerr ^ 2 / dt

/-- `gwb_FoM_inter(Tobs, dt, TOAerr) = Tobs**(1/2) * (TOAerr**2 * dt) ** (-1/(2*13/3))`.
Note the Python exponent `-1/(2*13/3)` evaluates to `-3/26`. -/
def gwb_FoM_inter (Tobs dt TOAerr : ℝ) : ℝ :=
  Tobs ^ ((1:ℝ)/2) * (TOAerr ^ 2 * dt) ^ (-1 / (2 * 13 / 3) : ℝ)

/-- The GWB intermediate-scaling formula exactly as the specification words
it: `sqrt(T) * (sigma^2 * dt)^(-3/13)`.  Stated only to be compared with
the source function `gwb_FoM_inter`. -/
def gwb_FoM_inter_specClaim (Tobs dt TOAerr : ℝ) : ℝ :=
  Real.sqrt Tobs * (TOAerr ^ 2 * dt) ^ (-(3:ℝ)/13)

end

/-- The per-(pulsar, PTA) body of the `FoM_dict` construction loop.  Its
inputs are the surviving TOAs (`psr.toas()[idx]`, in MJD days) and their
uncertainties (`psr.toaerrs[idx]`).  Two pieces are external to the
repository and appear as parameters: `nGroups` is `U.shape[1]`, the column
count of the quantization matrix returned by the `enterprise` library, and
`fom` is the formula bound to the alias `my_FoM` (a per-run configuration
choice).  With no surviving epochs the notebook stores the sentinel values
`Tobs = 0`, `sigma = inf`, `cadence = inf`, `FoM = 0`; we write `⊤` for
`inf`. -/
def mkRecord (fom : ℚ → ℚ → ℚ → ℚ) (toas toaerrs : List ℚ) (nGroups : ℕ) :
    ObservationRecord :=
  match toas with
  | [] =>
    { Tobs := 0, dt := ⊤, sigma := ⊤, FoM := 0 }
  | t :: ts =>
    let tmax : ℚ := ts.foldl max t
    let tmin : ℚ := ts.foldl min t
    let cadence : ℚ := (tmax - tmin) / nGroups
    let tobs : ℚ := (tmax - tmin) / (1461/4)
    let hmean : ℚ := 1 / ((toaerrs.map (fun e => 1 / e)).sum / toaerrs.length)
    { Tobs := (tobs : WithTop ℚ), dt := (cadence : WithTop ℚ),
      sigma := (hmean : WithTop ℚ), FoM := (fom tobs cadence hmean : WithTop ℚ) }

/-- A raw `FoM_dict[psrname][pta]` entry at Python-dictionary level: a
partial map from field name to value, so that an entry lacking one of the
fields read by the selection loop can be expressed. -/
def RawRecord : Type := String → Option (WithTop ℚ)

/-- Field key `'Tobs'`. -/
def keyTobs : String := "Tobs"

/-- Field key `'sigma'`. -/
def keySigma : String := "sigma"

/-- Field key `'FoM'`. -/
def keyFoM : String := "FoM"

/-- One iteration of the selection loop modelled at raw dictionary level,
including the `try`/`except KeyError: pass` control flow and Python's
left-to-right short-circuit evaluation of the three-way `and`: any failed
key lookup (the missing pair itself, or a missing `'Tobs'`, `'sigma'` or
`'FoM'` field) raises `KeyError`, which the handler turns into "keep
`best` unchanged". -/
def rawStep (fomDict : String → String → Option RawRecord)
    (tmin smax : WithTop ℚ) (psrname : String) (best : Best) (pta : String) : Best :=
  let tryBlock : Except Unit Best :=
    match fomDict psrname pta with
    | none => Except.error ()
    | some d =>
      match d keyTobs with
      | none => Except.error ()
      | some t =>
        if t > tmin then
          match d keySigma with
          | none => Except.error ()
          | some s =>
            if s < smax then
              match d keyFoM with
              | none => Except.error ()
              | some f =>
                if f > best.FoM then Except.ok { pta := some pta, Tobs := t, FoM := f }
                else Except.ok best
            else Except.ok best
        else Except.ok best
  match tryBlock with
  | Except.ok b => b
  | Except.error _ => best

/-- The inner selection loop at raw dictionary level. -/
def rawSelectBest (fomDict : String → String → Option RawRecord)
    (tmin smax : WithTop ℚ) (ptas : List String) (psrname : String) : Best :=
  ptas.foldl (rawStep fomDict tmin smax psrname) { pta := none, Tobs := 0, FoM := 0 }

/-- Notebook configuration: `Tmin = 5.0` (years). -/
def TminConfig : WithTop ℚ := ((5:ℚ) : WithTop ℚ)

/-- Notebook configuration: `sigmax = 10.0` (microseconds). -/
def sigmaxConfig : WithTop ℚ := ((10:ℚ) : WithTop ℚ)

/-- Notebook configuration: `ptas = ['PPTA', 'EPTA', 'NANOGrav']`. -/
def ptasConfig : List String := [ "PPTA", "EPTA", "NANOGrav" ]

/-- Notebook configuration: the backend (`-group`) tags per PTA. -/
def backendsConfig : String → List String := fun pta =>
  if pta = "NANOGrav" then
    [ "327_ASP", "430_ASP", "L-wide_ASP", "S-wide_ASP",
      "327_PUPPI", "430_PUPPI", "L-wide_PUPPI", "S-wide_PUPPI",
      "Rcvr_800_GASP", "Rcvr1_2_GASP",
      "Rcvr_800_GUPPI", "Rcvr1_2_GUPPI" ]
  else if pta = "PPTA" then
    [ "PDFB_10CM", "PDFB_20CM", "PDFB_40CM",
      "CPSR2_20CM", "CPSR2_50CM",
      "WBCORR_10CM", "WBCORR_20CM" ]
  else if pta = "EPTA" then
    [ "EFF.EBPP.1360", "EFF.EBPP.1410", "EFF.EBPP.2639",
      "JBO.DFB.1400", "JBO.DFB.1520",
      "NRT.BON.1400", "NRT.BON.1600", "NRT.BON.2000",
      "WSRT.P1.328", "WSRT.P1.328.C", "WSRT.P1.323.C",
      "WSRT.P1.382", "WSRT.P1.382.C", "WSRT.P1.367.C",
      "WSRT.P1.840", "WSRT.P1.840.C",
      "WSRT.P1.1380", "WSRT.P1.1380.C",
      "WSRT.P1.1380.1",
      "WSRT.P1.1380.2", "WSRT.P1.1380.2.C",
      "WSRT.P1.2273.C" ]
  else []

/-- Pulsar name used in the concrete checks. -/
def psrJ : String := "J0000+0000"

/-- Candidate name `'PPTA'`. -/
def ptaPPTA : String := "PPTA"

/-- Candidate name `'EPTA'`. -/
def ptaEPTA : String := "EPTA"

/-- A record passing both thresholds with `FoM = 3`. -/
def recGood : ObservationRecord :=
  { Tobs := ((6:ℚ) : WithTop ℚ), dt := ((1:ℚ) : WithTop ℚ),
    sigma := ((1:ℚ) : WithTop ℚ), FoM := ((3:ℚ) : WithTop ℚ) }

/-- A record passing both thresholds but with `FoM = 0`. -/
def recZeroFoM : ObservationRecord :=
  { Tobs := ((6:ℚ) : WithTop ℚ), dt := ((1:ℚ) : WithTop ℚ),
    sigma := ((1:ℚ) : WithTop ℚ), FoM := ((0:ℚ) : WithTop ℚ) }

/-- A record whose baseline sits exactly at the `Tmin` threshold. -/
def recAtTmin : ObservationRecord :=
  { Tobs := ((5:ℚ) : WithTop ℚ), dt := ((1:ℚ) : WithTop ℚ),
    sigma := ((1:ℚ) : WithTop ℚ), FoM := ((3:ℚ) : WithTop ℚ) }

/-- A record whose uncertainty sits exactly at the `sigmax` threshold. -/
def recAtSigmax : ObservationRecord :=
  { Tobs := ((6:ℚ) : WithTop ℚ), dt := ((1:ℚ) : WithTop ℚ),
    sigma := ((10:ℚ) : WithTop ℚ), FoM := ((3:ℚ) : WithTop ℚ) }

/-- Concrete dictionary: one qualifying record, for PPTA only. -/
def lookupOne : String → String → Option ObservationRecord := fun n p =>
  if n = psrJ ∧ p = ptaPPTA then some recGood else none

/-- Concrete dictionary: PPTA and EPTA hold the same qualifying record
(equal positive FoM). -/
def lookupTie : String → String → Option ObservationRecord := fun n p =>
  if n = psrJ ∧ (p = ptaPPTA ∨ p = ptaEPTA) then some recGood else none

/-- Concrete dictionary: PPTA and EPTA hold the same qualifying record
whose FoM is zero. -/
def lookupTieZero : String → String → Option ObservationRecord := fun n p =>
  if n = psrJ ∧ (p = ptaPPTA ∨ p = ptaEPTA) then some recZeroFoM else none

/-- Concrete raw record with a `'Tobs'` field but no `'sigma'` and no
`'FoM'` field. -/
def rawRecT : RawRecord := fun k =>
  if k = keyTobs then some ((6:ℚ) : WithTop ℚ) else none

/-- Concrete raw dictionary: its single entry is `rawRecT`. -/
def rawNoSigma : String → String → Option RawRecord := fun n p =>
  if n = psrJ ∧ p = ptaPPTA then some rawRecT else none

/-- Concrete raw dictionary with no entries at all. -/
def rawAbsent : String → String → Option RawRecord := fun _ _ => none


theorem selStep_pta_eq {lookup : String → String → Option ObservationRecord}
    {tmin smax : WithTop ℚ} {n : String} {b : Best} {p q : String}
    (h : (selStep lookup tmin smax n b p).pta = some q) : q = p ∨ b.pta = some q := by
  cases hl : lookup n p with
  | none =>
    simp only [selStep, hl] at h
    exact Or.inr h
  | some r =>
    simp only [selStep, hl] at h
    by_cases hc : Qualifies tmin smax r ∧ r.FoM > b.FoM
    · rw [if_pos hc] at h
      injection h with h2
      exact Or.inl h2.symm
    · rw [if_neg hc] at h
      exact Or.inr h

theorem foldl_selStep_pta_eq {lookup : String → String → Option ObservationRecord}
    {tmin smax : WithTop ℚ} {n : String} :
    ∀ (l : List String) (b : Best) (q : String),
      ((l.foldl (selStep lookup tmin smax n) b).pta = some q) → q ∈ l ∨ b.pta = some q := by
  intro l
  induction l with
  | nil => intro b q h; exact Or.inr h
  | cons x xs ih =>
    intro b q h
    rw [List.foldl_cons] at h
    rcases ih _ q h with h1 | h1
    · exact Or.inl (List.mem_cons_of_mem x h1)
    · rcases selStep_pta_eq h1 with h2 | h2
      · subst h2; exact Or.inl (List.mem_cons_self q xs)
      · exact Or.inr h2

theorem selStep_FoM_le {lookup : String → String → Option ObservationRecord}
    {tmin smax : WithTop ℚ} {n : String} (b : Best) (p : String) :
    b.FoM ≤ (selStep lookup tmin smax n b p).FoM := by
  cases hl : lookup n p with
  | none => simp only [selStep, hl]; exact le_rfl
  | some r =>
    simp only [selStep, hl]
    by_cases hc : Qualifies tmin smax r ∧ r.FoM > b.FoM
    · rw [if_pos hc]; exact le_of_lt hc.2
    · rw [if_neg hc]

theorem foldl_selStep_FoM_le {lookup : String → String → Option ObservationRecord}
    {tmin smax : WithTop ℚ} {n : String} :
    ∀ (l : List String) (b : Best), b.FoM ≤ (l.foldl (selStep lookup tmin smax n) b).FoM := by
  intro l
  induction l with
  | nil => intro b; exact le_rfl
  | cons x xs ih =>
    intro b
    rw [List.foldl_cons]
    exact le_trans (selStep_FoM_le b x) (ih _)

theorem selStep_absent {lookup : String → String → Option ObservationRecord}
    {tmin smax : WithTop ℚ} {n : String} (b : Best) {p : String}
    (h : lookup n p = none) : selStep lookup tmin smax n b p = b := by
  simp only [selStep, h]

theorem selStep_notQual {lookup : String → String → Option ObservationRecord}
    {tmin smax : WithTop ℚ} {n : String} (b : Best) {p : String} {r : ObservationRecord}
    (h : lookup n p = some r) (hq : ¬ Qualifies tmin smax r) :
    selStep lookup tmin smax n b p = b := by
  simp only [selStep, h]
  rw [if_neg]
  intro hc
  exact hq hc.1

theorem selStep_dominated {lookup : String → String → Option ObservationRecord}
    {tmin smax : WithTop ℚ} {n : String} {b : Best} {p : String} {r : ObservationRecord}
    (h : lookup n p = some r) (hle : r.FoM ≤ b.FoM) :
    selStep lookup tmin smax n b p = b := by
  simp only [selStep, h]
  rw [if_neg]
  intro hc
  exact absurd hc.2 (not_lt.mpr hle)

theorem selStep_qual_FoM_le {lookup : String → String → Option ObservationRecord}
    {tmin smax : WithTop ℚ} {n : String} (b : Best) {p : String} {r : ObservationRecord}
    (h : lookup n p = some r) (hq : Qualifies tmin smax r) :
    r.FoM ≤ (selStep lookup tmin smax n b p).FoM := by
  simp only [selStep, h]
  by_cases hc : Qualifies tmin smax r ∧ r.FoM > b.FoM
  · rw [if_pos hc]
  · rw [if_neg hc]
    exact not_lt.mp (fun hlt => hc ⟨hq, hlt⟩)

theorem foldl_selStep_stay {lookup : String → String → Option ObservationRecord}
    {tmin smax : WithTop ℚ} {n : String} :
    ∀ (l : List String) (b : Best),
      (∀ q ∈ l, ∀ s, lookup n q = some s → Qualifies tmin smax s → s.FoM ≤ b.FoM) →
      l.foldl (selStep lookup tmin smax n) b = b := by
  intro l
  induction l with
  | nil => intro b _; rfl
  | cons x xs ih =>
    intro b hb
    have hx : selStep lookup tmin smax n b x = b := by
      cases hl : lookup n x with
      | none => exact selStep_absent b hl
      | some s =>
        by_cases hq : Qualifies tmin smax s
        · exact selStep_dominated hl (hb x (List.mem_cons_self x xs) s hl hq)
        · exact selStep_notQual b hl hq
    rw [List.foldl_cons, hx]
    exact ih b (fun q hq s hs hqs => hb q (List.mem_cons_of_mem x hq) s hs hqs)

theorem selInv_step {lookup : String → String → Option ObservationRecord}
    {tmin smax : WithTop ℚ} {n : String} {seen : List String} {b : Best}
    (hInv : SelInv lookup tmin smax n seen b) (p : String) :
    SelInv lookup tmin smax n (seen ++ [ p ]) (selStep lookup tmin smax n b p) := by
  obtain ⟨h0, hnone, hseen, hprov⟩ := hInv
  cases hl : lookup n p with
  | none =>
    simp only [selStep, hl]
    refine ⟨h0, hnone, ?_, ?_⟩
    · intro q hq s hs hqs
      rcases List.mem_append.mp hq with hq | hq
      · exact hseen q hq s hs hqs
      · have hqp : q = p := by simpa using hq
        subst hqp
        rw [hl] at hs
        cases hs
    · intro p' hp'
      obtain ⟨hmem, rest⟩ := hprov p' hp'
      exact ⟨List.mem_append_left _ hmem, rest⟩
  | some r =>
    simp only [selStep, hl]
    by_cases hc : Qualifies tmin smax r ∧ r.FoM > b.FoM
    · rw [if_pos hc]
      obtain ⟨hq, hlt⟩ := hc
      refine ⟨le_of_lt (lt_of_le_of_lt h0 hlt), ?_, ?_, ?_⟩
      · intro h; cases h
      · intro q hq2 s hs hqs
        rcases List.mem_append.mp hq2 with hq2 | hq2
        · exact le_trans (hseen q hq2 s hs hqs) (le_of_lt hlt)
        · have hqp : q = p := by simpa using hq2
          subst hqp
          rw [hl] at hs
          cases hs
          exact le_rfl
      · intro p' hp'
        have hpp : p = p' := by injection hp'
        subst hpp
        exact ⟨List.mem_append_right _ (List.mem_singleton.mpr rfl), r, hl, hq, rfl, rfl,
          lt_of_le_of_lt h0 hlt⟩
    · rw [if_neg hc]
      refine ⟨h0, hnone, ?_, ?_⟩
      · intro q hq2 s hs hqs
        rcases List.mem_append.mp hq2 with hq2 | hq2
        · exact hseen q hq2 s hs hqs
        · have hqp : q = p := by simpa using hq2
          subst hqp
          rw [hl] at hs
          cases hs
          exact not_lt.mp (fun hlt => hc ⟨hqs, hlt⟩)
      · intro p' hp'
        obtain ⟨hmem, rest⟩ := hprov p' hp'
        exact ⟨List.mem_append_left _ hmem, rest⟩

theorem selInv_fold {lookup : String → String → Option ObservationRecord}
    {tmin smax : WithTop ℚ} {n : String} :
    ∀ (l seen : List String) (b : Best),
      SelInv lookup tmin smax n seen b →
      SelInv lookup tmin smax n (seen ++ l) (l.foldl (selStep lookup tmin smax n) b) := by
  intro l
  induction l with
  | nil => intro seen b h; simpa using h
  | cons x xs ih =>
    intro seen b h
    have h3 := ih (seen ++ [ x ]) _ (selInv_step h x)
    rw [List.foldl_cons]
    simpa [List.append_assoc] using h3

theorem selInv_selectBest (lookup : String → String → Option ObservationRecord)
    (tmin smax : WithTop ℚ) (ptas : List String) (n : String) :
    SelInv lookup tmin smax n ptas (selectBest lookup tmin smax ptas n) := by
  have h0 : SelInv lookup tmin smax n [] { pta := none, Tobs := 0, FoM := 0 } := by
    refine ⟨le_rfl, fun _ => rfl, ?_, ?_⟩
    · intro q hq
      exact absurd hq (List.not_mem_nil q)
    · intro p hp
      cases hp
  have h := selInv_fold ptas [] _ h0
  simpa [selectBest] using h

theorem psrdictBuild_keys {lookup : String → String → Option ObservationRecord}
    {tmin smax : WithTop ℚ} {ptas : List String} {backends : String → List String} :
    ∀ (l : List String) (acc : List (String × Assignment)),
      ∃ ks : List String,
        (l.foldl (psrStep lookup tmin smax ptas backends) acc).map Prod.fst
          = acc.map Prod.fst ++ ks ∧ ks.Sublist l := by
  intro l
  induction l with
  | nil => intro acc; exact ⟨[], by simp, List.nil_sublist _⟩
  | cons x xs ih =>
    intro acc
    rw [List.foldl_cons]
    obtain ⟨ks, hks, hsub⟩ := ih (psrStep lookup tmin smax ptas backends acc x)
    cases hstep : (selectBest lookup tmin smax ptas x).pta with
    | some p =>
      refine ⟨x :: ks, ?_, List.Sublist.cons₂ x hsub⟩
      rw [hks]
      simp [psrStep, hstep]
    | none =>
      refine ⟨ks, ?_, List.Sublist.cons x hsub⟩
      rw [hks]
      simp [psrStep, hstep]

theorem psrdictBuild_count_le_one {lookup : String → String → Option ObservationRecord}
    {tmin smax : WithTop ℚ} {ptas : List String} {backends : String → List String}
    {psrlist : List String} (hnd : psrlist.Nodup) (n : String) :
    (psrdictBuild lookup tmin smax ptas backends psrlist).countP (fun e => e.1 == n) ≤ 1 := by
  obtain ⟨ks, hks, hsub⟩ := psrdictBuild_keys psrlist []
  have hmap : (psrdictBuild lookup tmin smax ptas backends psrlist).map Prod.fst = ks := by
    simpa [psrdictBuild] using hks
  have hcnt : ∀ (L : List (String × Assignment)),
      L.countP (fun e => e.1 == n) = (L.map Prod.fst).count n := by
    intro L
    rw [show (L.map Prod.fst).count n = (L.map Prod.fst).countP (fun k => k == n) from rfl,
      List.countP_map]
    rfl
  rw [hcnt, hmap]
  exact List.nodup_iff_count_le_one.mp (hsub.nodup hnd) n

theorem psrdictBuild_mem {lookup : String → String → Option ObservationRecord}
    {tmin smax : WithTop ℚ} {ptas : List String} {backends : String → List String} :
    ∀ (l : List String) (acc : List (String × Assignment)) (e : String × Assignment),
      e ∈ l.foldl (psrStep lookup tmin smax ptas backends) acc →
      e ∈ acc ∨ ∃ m ∈ l, ∃ p, (selectBest lookup tmin smax ptas m).pta = some p ∧
        e = (m, { pta := [ p ], group := backends p }) := by
  intro l
  induction l with
  | nil => intro acc e h; exact Or.inl h
  | cons x xs ih =>
    intro acc e h
    rw [List.foldl_cons] at h
    rcases ih _ e h with h1 | h1
    · cases hstep : (selectBest lookup tmin smax ptas x).pta with
      | some p =>
        simp only [psrStep, hstep] at h1
        rcases List.mem_append.mp h1 with h2 | h2
        · exact Or.inl h2
        · have he : e = (x, { pta := [ p ], group := backends p }) := by simpa using h2
          exact Or.inr ⟨x, List.mem_cons_self x xs, p, hstep, he⟩
      | none =>
        simp only [psrStep, hstep] at h1
        exact Or.inl h1
    · obtain ⟨m, hm, p, hp, he⟩ := h1
      exact Or.inr ⟨m, List.mem_cons_of_mem x hm, p, hp, he⟩

/-- C1: for every pulsar the `psrdict` loop emits at most one Assignment;
when it emits one, the chosen PTA's record satisfies both thresholds and
its FoM dominates the FoM of every qualifying record of that pulsar (with
the loop's strict `>`, a PTA holding the strictly greatest qualifying FoM
is therefore the only possible choice); and if no record of the pulsar
qualifies, the pulsar has no entry in the output. -/
theorem selector_at_most_one_and_best
    (lookup : String → String → Option ObservationRecord) (tmin smax : WithTop ℚ)
    (ptas : List String) (backends : String → List String)
    (psrlist : List String) (hnd : psrlist.Nodup) (psrname : String) :
    (psrdictBuild lookup tmin smax ptas backends psrlist).countP (fun e => e.1 == psrname) ≤ 1
    ∧ (∀ e ∈ psrdictBuild lookup tmin smax ptas backends psrlist, e.1 = psrname →
        ∃ x, x ∈ ptas ∧ (selectBest lookup tmin smax ptas psrname).pta = some x
          ∧ e.2 = { pta := [ x ], group := backends x }
          ∧ ∃ r, lookup psrname x = some r ∧ Qualifies tmin smax r
            ∧ ∀ q ∈ ptas, ∀ s, lookup psrname q = some s →
                Qualifies tmin smax s → s.FoM ≤ r.FoM)
    ∧ ((∀ q ∈ ptas, ∀ s, lookup psrname q = some s → ¬ Qualifies tmin smax s) →
        ∀ e ∈ psrdictBuild lookup tmin smax ptas backends psrlist, e.1 ≠ psrname) := by
  refine ⟨psrdictBuild_count_le_one hnd psrname, ?_, ?_⟩
  · intro e he h1
    rcases psrdictBuild_mem psrlist [] e he with hacc | ⟨m, _, p, hp, hep⟩
    · cases hacc
    · have hmn : m = psrname := by rw [hep] at h1; exact h1
      subst hmn
      obtain ⟨_, _, hseen, hprov⟩ := selInv_selectBest lookup tmin smax ptas m
      obtain ⟨hmem, r, hr, hq, _, hFoM, _⟩ := hprov p hp
      refine ⟨p, hmem, hp, ?_, r, hr, hq, ?_⟩
      · rw [hep]
      · intro q hq2 s hs hqs
        have hle := hseen q hq2 s hs hqs
        rw [hFoM] at hle
        exact hle
  · intro hnoq e he h1
    rcases psrdictBuild_mem psrlist [] e he with hacc | ⟨m, _, p, hp, hep⟩
    · cases hacc
    · have hmn : m = psrname := by rw [hep] at h1; exact h1
      subst hmn
      obtain ⟨_, _, _, hprov⟩ := selInv_selectBest lookup tmin smax ptas m
      obtain ⟨hmem, r, hr, hq, _⟩ := hprov p hp
      exact hnoq p hmem r hr hq

/-- Concrete instantiation of `selector_at_most_one_and_best` at the
notebook's configuration. -/
theorem selector_at_most_one_and_best_app :
    (psrdictBuild lookupOne TminConfig sigmaxConfig ptasConfig backendsConfig
      [ psrJ ]).countP (fun e => e.1 == psrJ) ≤ 1 :=
  (selector_at_most_one_and_best lookupOne TminConfig sigmaxConfig ptasConfig backendsConfig
    [ psrJ ] (by decide) psrJ).1

/-- C3: a record whose baseline equals `Tmin` exactly, or whose
uncertainty equals `sigmax` exactly, does not pass the threshold test:
the loop compares with strict `>` and strict `<`. -/
theorem threshold_boundaries_excluded (tmin smax : WithTop ℚ) (r : ObservationRecord) :
    (r.Tobs = tmin → ¬ Qualifies tmin smax r) ∧
    (r.sigma = smax → ¬ Qualifies tmin smax r) := by
  constructor
  · intro h hq
    rcases hq with ⟨h1, _⟩
    rw [h] at h1
    exact lt_irrefl tmin h1
  · intro h hq
    rcases hq with ⟨_, h2⟩
    rw [h] at h2
    exact lt_irrefl smax h2

/-- Concrete instantiation of `threshold_boundaries_excluded` at the
notebook's thresholds. -/
theorem threshold_boundaries_excluded_app :
    ¬ Qualifies TminConfig sigmaxConfig recAtTmin ∧
    ¬ Qualifies TminConfig sigmaxConfig recAtSigmax :=
  ⟨(threshold_boundaries_excluded TminConfig sigmaxConfig recAtTmin).1 rfl,
   (threshold_boundaries_excluded TminConfig sigmaxConfig recAtSigmax).2 rfl⟩

/-- C10: whenever the loop has picked a PTA, `best['FoM']` is strictly
positive and `best['Tobs']` is strictly above the baseline threshold; in
particular a pulsar all of whose qualifying records carry `FoM = 0` ends
the loop with `best['pta'] = None` and so receives no Assignment. -/
theorem assignment_positive_FoM
    (lookup : String → String → Option ObservationRecord) (tmin smax : WithTop ℚ)
    (ptas : List String) (psrname : String) :
    (∀ x, (selectBest lookup tmin smax ptas psrname).pta = some x →
      0 < (selectBest lookup tmin smax ptas psrname).FoM ∧
      tmin < (selectBest lookup tmin smax ptas psrname).Tobs) ∧
    ((∀ q ∈ ptas, ∀ s, lookup psrname q = some s → Qualifies tmin smax s → s.FoM = 0) →
      (selectBest lookup tmin smax ptas psrname).pta = none) := by
  obtain ⟨_, _, _, hprov⟩ := selInv_selectBest lookup tmin smax ptas psrname
  constructor
  · intro x hx
    obtain ⟨_, r, _, hq, hTobs, hFoM, hpos⟩ := hprov x hx
    constructor
    · rw [hFoM]; exact hpos
    · rw [hTobs]
      rcases hq with ⟨hT, _⟩
      exact hT
  · intro hall
    cases hopt : (selectBest lookup tmin smax ptas psrname).pta with
    | none => rfl
    | some x =>
      obtain ⟨hmem, r, hr, hq, _, _, hpos⟩ := hprov x hopt
      have hz := hall x hmem r hr hq
      rw [hz] at hpos
      exact absurd hpos (lt_irrefl 0)

/-- Concrete instantiation of `assignment_positive_FoM`. -/
theorem assignment_positive_FoM_app :
    0 < (selectBest lookupOne TminConfig sigmaxConfig ptasConfig psrJ).FoM ∧
    TminConfig < (selectBest lookupOne TminConfig sigmaxConfig ptasConfig psrJ).Tobs :=
  (assignment_positive_FoM lookupOne TminConfig sigmaxConfig ptasConfig psrJ).1
    ptaPPTA (by decide)

/-- C6: a missing (pulsar, PTA) record is handled by the `except KeyError:
pass` branch: the iteration leaves `best` unchanged, so the selection over
a candidate list containing the missing PTA equals the selection with that
PTA dropped, and the loop completes considering the remaining records. -/
theorem missing_record_skipped
    (lookup : String → String → Option ObservationRecord) (tmin smax : WithTop ℚ)
    (psrname : String) (A B : List String) (p : String)
    (h : lookup psrname p = none) :
    selectBest lookup tmin smax (A ++ p :: B) psrname
      = selectBest lookup tmin smax (A ++ B) psrname := by
  unfold selectBest
  rw [List.foldl_append, List.foldl_append, List.foldl_cons, selStep_absent _ h]

/-- Concrete instantiation of `missing_record_skipped`: `lookupOne` has no
EPTA entry. -/
theorem missing_record_skipped_app :
    selectBest lookupOne TminConfig sigmaxConfig ([ ptaPPTA ] ++ ptaEPTA :: []) psrJ
      = selectBest lookupOne TminConfig sigmaxConfig ([ ptaPPTA ] ++ []) psrJ :=
  missing_record_skipped lookupOne TminConfig sigmaxConfig psrJ [ ptaPPTA ] [] ptaEPTA
    (by decide)

/-- C8: the `psrdict` loop is a pure function of the dictionary, the
thresholds and the candidate order: pointwise-equal input dictionaries
produce identical output tables, so re-running the Selector on the same
input yields the same Assignment table. -/
theorem selector_deterministic
    (lookup1 lookup2 : String → String → Option ObservationRecord)
    (tmin smax : WithTop ℚ) (ptas : List String) (backends : String → List String)
    (psrlist : List String)
    (h : ∀ n p, lookup1 n p = lookup2 n p) :
    psrdictBuild lookup1 tmin smax ptas backends psrlist
      = psrdictBuild lookup2 tmin smax ptas backends psrlist := by
  have hfun : lookup1 = lookup2 := funext fun n => funext fun p => h n p
  rw [hfun]

/-- Concrete instantiation of `selector_deterministic`: two runs on the
same dictionary. -/
theorem selector_deterministic_app :
    psrdictBuild lookupOne TminConfig sigmaxConfig ptasConfig backendsConfig [ psrJ ]
      = psrdictBuild lookupOne TminConfig sigmaxConfig ptasConfig backendsConfig [ psrJ ] :=
  selector_deterministic lookupOne lookupOne TminConfig sigmaxConfig ptasConfig
    backendsConfig [ psrJ ] (fun _ _ => rfl)

/-- C4 counterexample: PPTA and EPTA both hold qualifying records with
equal FoM (namely `0`), yet the loop assigns nothing at all — `best` is
initialized with `FoM = 0` and is only replaced on a strict improvement —
so the first collaboration in candidate order is not assigned. -/
theorem tie_zero_FoM_no_assignment :
    Qualifies TminConfig sigmaxConfig recZeroFoM ∧
    lookupTieZero psrJ ptaPPTA = some recZeroFoM ∧
    lookupTieZero psrJ ptaEPTA = some recZeroFoM ∧
    (selectBest lookupTieZero TminConfig sigmaxConfig ptasConfig psrJ).pta = none ∧
    psrdictBuild lookupTieZero TminConfig sigmaxConfig ptasConfig backendsConfig
      [ psrJ ] = [] := by
  refine ⟨by decide, by decide, by decide, by decide, by decide⟩

/-- C4 amended: when every qualifying record of a pulsar carries the same
strictly positive FoM `m` (in particular when two or more collaborations
tie at the top with positive FoM), the loop assigns the first candidate in
the configured order that has a qualifying record: strict `>` on FoM makes
the first-seen collaboration win ties. -/
theorem tie_goes_to_earliest
    (lookup : String → String → Option ObservationRecord) (tmin smax : WithTop ℚ)
    (psrname : String) (A B : List String) (x : String)
    (rx : ObservationRecord) (m : WithTop ℚ)
    (hx : lookup psrname x = some rx) (hqx : Qualifies tmin smax rx)
    (hm : 0 < m) (hrx : rx.FoM = m)
    (hA : ∀ a ∈ A, ∀ s, lookup psrname a = some s → ¬ Qualifies tmin smax s)
    (hall : ∀ q ∈ A ++ x :: B, ∀ s, lookup psrname q = some s →
      Qualifies tmin smax s → s.FoM = m) :
    (selectBest lookup tmin smax (A ++ x :: B) psrname).pta = some x := by
  unfold selectBest
  rw [List.foldl_append, List.foldl_cons]
  have hAid :
      A.foldl (selStep lookup tmin smax psrname) { pta := none, Tobs := 0, FoM := 0 }
        = { pta := none, Tobs := 0, FoM := 0 } := by
    apply foldl_selStep_stay
    intro q hq s hs hqs
    exact absurd hqs (hA q hq s hs)
  rw [hAid]
  have hstep :
      selStep lookup tmin smax psrname { pta := none, Tobs := 0, FoM := 0 } x
        = { pta := some x, Tobs := rx.Tobs, FoM := rx.FoM } := by
    simp only [selStep, hx]
    rw [if_pos]
    constructor
    · exact hqx
    · show (0 : WithTop ℚ) < rx.FoM
      rw [hrx]
      exact hm
  rw [hstep]
  have hBid :
      B.foldl (selStep lookup tmin smax psrname)
          { pta := some x, Tobs := rx.Tobs, FoM := rx.FoM }
        = { pta := some x, Tobs := rx.Tobs, FoM := rx.FoM } := by
    apply foldl_selStep_stay
    intro q hq s hs hqs
    have hsm : s.FoM = m :=
      hall q (List.mem_append_right A (List.mem_cons_of_mem x hq)) s hs hqs
    show s.FoM ≤ rx.FoM
    rw [hsm, hrx]
  rw [hBid]

/-- Concrete instantiation of `tie_goes_to_earliest`: PPTA and EPTA tie at
FoM `3`; PPTA comes first in candidate order and is assigned. -/
theorem tie_goes_to_earliest_app :
    (selectBest lookupTie TminConfig sigmaxConfig ([] ++ ptaPPTA :: [ ptaEPTA ]) psrJ).pta
      = some ptaPPTA := by
  apply tie_goes_to_earliest lookupTie TminConfig sigmaxConfig psrJ [] [ ptaEPTA ]
      ptaPPTA recGood (((3:ℚ) : WithTop ℚ))
  · decide
  · decide
  · decide
  · decide
  · intro a ha
    exact absurd ha (List.not_mem_nil a)
  · intro q hq s hs _
    have hq2 : q = ptaPPTA ∨ q = ptaEPTA := by simpa using hq
    have hsome : some recGood = some s := by
      rcases hq2 with rfl | rfl
      · rw [← hs]; decide
      · rw [← hs]; decide
    injection hsome with h2
    rw [← h2]
    decide

/-- C5: with zero surviving epochs the summary step produces exactly the
sentinel record `Tobs = 0`, `dt = inf`, `sigma = inf`, `FoM = 0`, and for
every choice of positive thresholds this record fails the ordinary
threshold comparisons of the selection loop, with no special-casing. -/
theorem sentinel_record_excluded (fom : ℚ → ℚ → ℚ → ℚ) (toaerrs : List ℚ) (nGroups : ℕ) :
    mkRecord fom [] toaerrs nGroups = { Tobs := 0, dt := ⊤, sigma := ⊤, FoM := 0 } ∧
    ∀ tmin smax : WithTop ℚ, 0 < tmin → 0 < smax →
      ¬ Qualifies tmin smax (mkRecord fom [] toaerrs nGroups) := by
  refine ⟨rfl, ?_⟩
  intro tmin smax htmin _ hq
  rcases hq with ⟨hT, _⟩
  have hT0 : tmin < (0 : WithTop ℚ) := hT
  exact absurd (lt_trans htmin hT0) (lt_irrefl 0)

/-- Concrete instantiation of `sentinel_record_excluded` at the notebook's
thresholds. -/
theorem sentinel_record_excluded_app :
    ¬ Qualifies TminConfig sigmaxConfig (mkRecord (fun _ _ _ => 0) [] [] 0) :=
  (sentinel_record_excluded (fun _ _ _ => 0) [] 0).2 TminConfig sigmaxConfig
    (by decide) (by decide)

/-- C2 counterexample: at `T = 1`, `dt = 2`, `sigma = 1` the source
function `gwb_FoM_inter` returns `2 ^ (-3/26)` while the claimed formula
`sqrt(T) * (sigma^2 * dt) ^ (-3/13)` gives `2 ^ (-3/13)`; the two values
differ. -/
theorem gwb_FoM_inter_ne_specClaim :
    gwb_FoM_inter 1 2 1 ≠ gwb_FoM_inter_specClaim 1 2 1 := by
  unfold gwb_FoM_inter gwb_FoM_inter_specClaim
  simp only [Real.sqrt_one, Real.one_rpow, one_pow, one_mul]
  exact ne_of_gt (by
    rw [Real.rpow_lt_rpow_left_iff one_lt_two]
    norm_num)

/-- C2 amended: for every finite positive baseline `T`, cadence `dt` and
uncertainty `sigma`, `gwb_FoM_inter` returns
`sqrt(T) * (sigma^2 * dt) ^ (-3/26)`: the Python exponent `-1/(2*13/3)`
is `-3/26`, not `-3/13`. -/
theorem gwb_FoM_inter_closed_form (Tobs dt TOAerr : ℝ)
    (hT : 0 < Tobs) (hdt : 0 < dt) (hs : 0 < TOAerr) :
    gwb_FoM_inter Tobs dt TOAerr
      = Real.sqrt Tobs * (TOAerr ^ 2 * dt) ^ (-(3:ℝ)/26) := by
  unfold gwb_FoM_inter
  rw [show (-1 / (2 * 13 / 3) : ℝ) = -(3:ℝ)/26 by norm_num, ← Real.sqrt_eq_rpow]

/-- Concrete instantiation of `gwb_FoM_inter_closed_form`. -/
theorem gwb_FoM_inter_closed_form_app :
    gwb_FoM_inter 4 1 1 = Real.sqrt 4 * ((1:ℝ) ^ 2 * 1) ^ (-(3:ℝ)/26) :=
  gwb_FoM_inter_closed_form 4 1 1 (by norm_num) (by norm_num) (by norm_num)

/-- C7: for positive arguments, `bwm_FoM = sqrt(T^3/dt)/sigma` is strictly
increasing in the baseline `T`, strictly decreasing in the cadence `dt`,
and strictly decreasing in the uncertainty `sigma`. -/
theorem bwm_FoM_strictly_monotone :
    (∀ T1 T2 dt s : ℝ, 0 < T1 → T1 < T2 → 0 < dt → 0 < s →
      bwm_FoM T1 dt s < bwm_FoM T2 dt s) ∧
    (∀ T dt1 dt2 s : ℝ, 0 < T → 0 < dt1 → dt1 < dt2 → 0 < s →
      bwm_FoM T dt2 s < bwm_FoM T dt1 s) ∧
    (∀ T dt s1 s2 : ℝ, 0 < T → 0 < dt → 0 < s1 → s1 < s2 →
      bwm_FoM T dt s2 < bwm_FoM T dt s1) := by
  refine ⟨?_, ?_, ?_⟩
  · intro T1 T2 dt s hT1 h12 hdt hs
    unfold bwm_FoM
    gcongr
  · intro T dt1 dt2 s hT hdt1 h12 hs
    have hdt2 : 0 < dt2 := lt_trans hdt1 h12
    unfold bwm_FoM
    gcongr
  · intro T dt s1 s2 hT hdt hs1 h12
    unfold bwm_FoM
    gcongr

/-- Concrete instantiation of `bwm_FoM_strictly_monotone`. -/
theorem bwm_FoM_strictly_monotone_app :
    bwm_FoM 1 1 1 < bwm_FoM 2 1 1 ∧
    bwm_FoM 1 2 1 < bwm_FoM 1 1 1 ∧
    bwm_FoM 1 1 2 < bwm_FoM 1 1 1 :=
  ⟨bwm_FoM_strictly_monotone.1 1 2 1 1 one_pos one_lt_two one_pos one_pos,
   bwm_FoM_strictly_monotone.2.1 1 1 2 1 one_pos one_pos one_lt_two one_pos,
   bwm_FoM_strictly_monotone.2.2 1 1 1 2 one_pos one_pos one_pos one_lt_two⟩

/-- C9: a (pulsar, PTA) entry that is present but lacks one of the fields
`'Tobs'`, `'sigma'` or `'FoM'` is treated exactly like an absent entry:
the field lookup raises `KeyError` (or the short-circuit `and` already
rejected the record), the same handler catches it, the iteration leaves
`best` unchanged, and the whole selection equals the one on the dictionary
with that entry removed — no abort, no Assignment from partial data. -/
theorem missing_field_treated_as_absent
    (fomDict fomDict2 : String → String → Option RawRecord)
    (tmin smax : WithTop ℚ) (psrname pta : String) (d : RawRecord)
    (hd : fomDict psrname pta = some d)
    (hmiss : d keyTobs = none ∨ d keySigma = none ∨ d keyFoM = none)
    (habsent : fomDict2 psrname pta = none)
    (hagree : ∀ q, q ≠ pta → fomDict2 psrname q = fomDict psrname q) :
    (∀ b, rawStep fomDict tmin smax psrname b pta = b) ∧
    ∀ ptas, rawSelectBest fomDict tmin smax ptas psrname
      = rawSelectBest fomDict2 tmin smax ptas psrname := by
  have hstep : ∀ b, rawStep fomDict tmin smax psrname b pta = b := by
    intro b
    rcases hmiss with hm | hm | hm
    · simp only [rawStep, hd, hm]
    · cases ht : d keyTobs with
      | none => simp only [rawStep, hd, ht]
      | some t =>
        by_cases htm : t > tmin
        · simp only [rawStep, hd, ht, hm, if_pos htm]
        · simp only [rawStep, hd, ht, if_neg htm]
    · cases ht : d keyTobs with
      | none => simp only [rawStep, hd, ht]
      | some t =>
        by_cases htm : t > tmin
        · cases hsg : d keySigma with
          | none => simp only [rawStep, hd, ht, hsg, if_pos htm]
          | some s =>
            by_cases hsm : s < smax
            · simp only [rawStep, hd, ht, hsg, hm, if_pos htm, if_pos hsm]
            · simp only [rawStep, hd, ht, hsg, if_pos htm, if_neg hsm]
        · simp only [rawStep, hd, ht, if_neg htm]
  refine ⟨hstep, ?_⟩
  have hfold : ∀ (l : List String) (b : Best),
      l.foldl (rawStep fomDict tmin smax psrname) b
        = l.foldl (rawStep fomDict2 tmin smax psrname) b := by
    intro l
    induction l with
    | nil => intro b; rfl
    | cons x xs ih =>
      intro b
      rw [List.foldl_cons, List.foldl_cons]
      have hx : rawStep fomDict tmin smax psrname b x
          = rawStep fomDict2 tmin smax psrname b x := by
        by_cases hxp : x = pta
        · subst hxp
          rw [hstep b]
          simp only [rawStep, habsent]
        · have hagx := hagree x hxp
          simp only [rawStep, hagx]
      rw [hx]
      exact ih _
  intro ptas
  unfold rawSelectBest
  exact hfold ptas _

/-- Concrete instantiation of `missing_field_treated_as_absent`: the
entry of `rawNoSigma` lacks the `'sigma'` field. -/
theorem missing_field_treated_as_absent_app :
    (∀ b, rawStep rawNoSigma TminConfig sigmaxConfig psrJ b ptaPPTA = b) ∧
    ∀ ptas, rawSelectBest rawNoSigma TminConfig sigmaxConfig ptas psrJ
      = rawSelectBest rawAbsent TminConfig sigmaxConfig ptas psrJ :=
  missing_field_treated_as_absent rawNoSigma rawAbsent TminConfig sigmaxConfig psrJ ptaPPTA
    rawRecT (by simp [rawNoSigma]) (Or.inr (Or.inl (by decide))) rfl
    (fun q hq => by simp [rawNoSigma, rawAbsent, hq])
